import Mathlib

set_option maxRecDepth 4000

namespace FpOps

/-!
Verification development for the fp_ops repository.

Section 1 embeds the operation composition and execution engine
(Outcome, Placeholder, Node, Binder, Operation, Executor).
The engine source is not part of the repository snapshot (only its tests
and its leaf users are), so each engine definition is modelled from the
specification text, section by section, and checked against the
behaviour pinned down by the repository's tests in tests/test_binding.py.

Section 2 embeds the data-shaping helpers of src/fp_ops/objects.py
(get, build, merge, update) directly from their source.
-/

/-- Modelled from the spec: the Outcome container (spec section 3 and 4.1),
a tagged variant Success(value) or Failure(error). -/
inductive Outcome (ε α : Type) where
  | success : α → Outcome ε α
  | failure : ε → Outcome ε α
deriving DecidableEq

/-- Modelled from the spec: Outcome.isOk, true exactly on Success (spec 4.1). -/
def Outcome.is_ok {ε α : Type} : Outcome ε α → Bool
  | .success _ => true
  | .failure _ => false

/-- Modelled from the spec: valueOr / default_value, the held value on Success,
the fallback on Failure, never raising (spec 4.1). -/
def Outcome.default_value {ε α : Type} : Outcome ε α → α → α
  | .success v, _ => v
  | .failure _, fallback => fallback

/-- Modelled from the spec: an error of a chain execution is either an exception
raised by the wrapped callable, or Binder infeasibility at run time (the
assembled argument set cannot satisfy the callable's declared parameters),
which the spec says is captured exactly like an execution failure (spec 7). -/
inductive EngineError (ε : Type) where
  | raised : ε → EngineError ε
  | infeasible : EngineError ε
deriving DecidableEq

/-- Modelled from the spec: a bound-argument slot is either a fixed value or the
Placeholder marker (spec 3 "ordered sequence of (value | Placeholder)"; the
tagged-variant representation is the one the spec's design notes describe). -/
inductive Arg (α : Type) where
  | val : α → Arg α
  | hole : Arg α
deriving DecidableEq

/-- Recognize the Placeholder marker in a bound-argument slot. -/
def Arg.isHole {α : Type} : Arg α → Bool
  | .hole => true
  | .val _ => false

/-- Modelled from the spec: a Node wraps one callable plus its statically bound
positional and keyword arguments, and carries the callable's declared
parameter-name metadata captured at wrap time (spec 3 and design note on
runtime signature introspection). The callable takes its resolved argument
values in declaration order and either returns a value or raises (Except). -/
structure Node (ε α : Type) where
  params : List String
  fn : List α → Except ε α
  boundPos : List (Arg α)
  boundKw : List (String × Arg α)

/-- Modelled from the spec: an Operation is an ordered sequence of Nodes of
length at least one (spec 3); the head node is kept separate so the
length invariant holds by construction. -/
structure Operation (ε α : Type) where
  first : Node ε α
  rest : List (Node ε α)

/-- The flattened node sequence of an Operation. -/
def Operation.nodes {ε α : Type} (op : Operation ε α) : List (Node ε α) :=
  op.first :: op.rest

/-- A node is fully unbound when both bound-argument stores are empty (spec 4.3 rule 1). -/
def Node.isUnbound {ε α : Type} (n : Node ε α) : Bool :=
  n.boundPos.isEmpty && n.boundKw.isEmpty

/-- A node's bound arguments contain at least one Placeholder occurrence (spec 4.3 rule 3). -/
def Node.hasHole {ε α : Type} (n : Node ε α) : Bool :=
  n.boundPos.any Arg.isHole || n.boundKw.any fun p => (p.2).isHole

/-- Extract the values of a bound positional list that contains no Placeholder. -/
def argVals? {α : Type} : List (Arg α) → Option (List α)
  | [] => some []
  | .val v :: rest => (argVals? rest).map (v :: ·)
  | .hole :: _ => none

/-- Extract the values of a bound keyword list that contains no Placeholder. -/
def kwVals? {α : Type} : List (String × Arg α) → Option (List (String × α))
  | [] => some []
  | (k, .val v) :: rest => (kwVals? rest).map ((k, v) :: ·)
  | (_, .hole) :: _ => none

/-- Modelled from the spec: substitute each Placeholder occurrence of a bound
positional list, in left-to-right order, with the next call-supplied
positional value (spec 4.3 rule 3, first node); returns the final values and
the unconsumed supply, or nothing when the supply runs short (which the
engine surfaces as a run-time infeasibility, spec 7). -/
def substPos {α : Type} : List (Arg α) → List α → Option (List α × List α)
  | [], supply => some ([], supply)
  | .val v :: rest, supply => (substPos rest supply).map fun p => (v :: p.1, p.2)
  | .hole :: rest, s :: supply => (substPos rest supply).map fun p => (s :: p.1, p.2)
  | .hole :: _, [] => none

/-- Modelled from the spec: substitute Placeholder occurrences of a bound keyword
list, continuing in order from the remaining call-supplied positional values. -/
def substKw {α : Type} : List (String × Arg α) → List α → Option (List (String × α) × List α)
  | [], supply => some ([], supply)
  | (k, .val v) :: rest, supply => (substKw rest supply).map fun p => ((k, v) :: p.1, p.2)
  | (k, .hole) :: rest, s :: supply => (substKw rest supply).map fun p => ((k, s) :: p.1, p.2)
  | (_, .hole) :: _, [] => none

/-- Modelled from the spec: at a non-first node every Placeholder occurrence in
the bound positional list is substituted with the upstream value (spec 4.3 rule 3). -/
def substPosUp {α : Type} (u : α) (args : List (Arg α)) : List α :=
  args.map fun a => match a with | .val v => v | .hole => u

/-- Modelled from the spec: Placeholder substitution by the upstream value in the
bound keyword list of a non-first node. -/
def substKwUp {α : Type} (u : α) (kw : List (String × Arg α)) : List (String × α) :=
  kw.map fun p => match p.2 with | .val v => (p.1, v) | .hole => (p.1, u)

/-- First-occurrence lookup in an association list with string keys
(the model of Python dict lookup, whose keys are unique). -/
def dictLookup {β : Type} : List (String × β) → String → Option β
  | [], _ => none
  | (k, v) :: rest, key => if k = key then some v else dictLookup rest key

/-- Modelled from the spec: the Binder (spec 4.3). Given whether the node is
first in the chain, the upstream value (absent only for the first node), the
call-supplied extras (meaningful only at the first node) and the node, it
produces the final positional and keyword argument lists, or nothing when a
Placeholder cannot be filled (run-time infeasibility, spec 7).
Rule 1: fully unbound nodes take the extras verbatim (first node) or a single
positional upstream value (later node). Rule 2: a node bound without any
Placeholder is invoked with exactly its bound values; upstream value and call
extras are ignored entirely. Rule 3: Placeholders fill from call-supplied
positional values in left-to-right order at the first node (keyword extras
then fill named parameters not covered by the bound keywords), and from the
upstream value at any later node. -/
def bindArgs {ε α : Type} (isFirst : Bool) (upstream : Option α) (extraPos : List α)
    (extraKw : List (String × α)) (n : Node ε α) : Option (List α × List (String × α)) :=
  if n.isUnbound then
    if isFirst then some (extraPos, extraKw)
    else
      match upstream with
      | some u => some ([u], [])
      | none => none
  else if n.hasHole = false then
    match argVals? n.boundPos, kwVals? n.boundKw with
    | some ps, some ks => some (ps, ks)
    | _, _ => none
  else if isFirst then
    match substPos n.boundPos extraPos with
    | none => none
    | some (ps, remaining) =>
      match substKw n.boundKw remaining with
      | none => none
      | some (ks, _) =>
        some (ps, ks ++ extraKw.filter fun p => !((n.boundKw.map Prod.fst).contains p.1))
  else
    match upstream with
    | some u => some (substPosUp u n.boundPos, substKwUp u n.boundKw)
    | none => none

/-- Fill the remaining unassigned parameter slots with the positional values,
in declaration order; fails when values are missing or left over
(the model of the callable's signature binding raising). -/
def fillSlots {α : Type} : List (Option α) → List α → Option (List α)
  | [], [] => some []
  | [], _ :: _ => none
  | some v :: rest, pos => (fillSlots rest pos).map (v :: ·)
  | none :: rest, p :: pos => (fillSlots rest pos).map (p :: ·)
  | none :: _, [] => none

/-- Modelled from the spec and the repository tests: resolve the final positional
and keyword argument lists against the callable's declared parameter names.
Keyword arguments are assigned to their named parameters and the positional
values fill the remaining parameters in declaration order (the tests pin this
down: executing an unbound two-parameter node with one positional value and a
keyword value for the first parameter succeeds). An unknown keyword name, a
missing parameter or a surplus positional value fails, which the engine
captures as a failure outcome (spec 7). -/
def resolveArgs {α : Type} (params : List String) (pos : List α)
    (kw : List (String × α)) : Option (List α) :=
  if kw.all fun p => params.contains p.1 then
    fillSlots (params.map fun nm => dictLookup kw nm) pos
  else none

/-- Modelled from the spec: one node invocation (spec 4.5 steps 1 to 3): resolve
the final arguments via the Binder, bind them to the callable's parameters,
and run the callable; a raised exception or an unsatisfiable argument set
becomes an error instead of a fault. -/
def invokeNode {ε α : Type} (isFirst : Bool) (upstream : Option α) (extraPos : List α)
    (extraKw : List (String × α)) (n : Node ε α) : Except (EngineError ε) α :=
  match bindArgs isFirst upstream extraPos extraKw n with
  | none => .error .infeasible
  | some (pos, kw) =>
    match resolveArgs n.params pos kw with
    | none => .error .infeasible
    | some vals =>
      match n.fn vals with
      | .ok v => .ok v
      | .error e => .error (.raised e)

/-- Modelled from the spec: the Executor's loop over the non-first nodes
(spec 4.5): each later node receives the previous unwrapped success value as
upstream with the call extras cleared, and the first error short-circuits. -/
def runRest {ε α : Type} (u : α) : List (Node ε α) → Outcome (EngineError ε) α
  | [] => .success u
  | n :: rest =>
    match invokeNode false (some u) [] [] n with
    | .error e => .failure e
    | .ok v => runRest v rest

/-- Modelled from the spec: execute an Operation with explicit call extras for
node 0 (spec 4.5 and 6): invoke the first node with the extras, then feed
each unwrapped success downstream, short-circuiting on the first failure. -/
def Operation.execute {ε α : Type} (op : Operation ε α) (extraPos : List α)
    (extraKw : List (String × α)) : Outcome (EngineError ε) α :=
  match invokeNode true none extraPos extraKw op.first with
  | .error e => .failure e
  | .ok v => runRest v op.rest

/-- Instrumented executor loop: same result as runRest, also counting how many
node invocations actually happen. -/
def runRestCount {ε α : Type} (u : α) : List (Node ε α) → Outcome (EngineError ε) α × Nat
  | [] => (.success u, 0)
  | n :: rest =>
    match invokeNode false (some u) [] [] n with
    | .error e => (.failure e, 1)
    | .ok v =>
      let p := runRestCount v rest
      (p.1, p.2 + 1)

/-- Instrumented execution: the outcome together with the number of nodes invoked. -/
def Operation.executeCount {ε α : Type} (op : Operation ε α) (extraPos : List α)
    (extraKw : List (String × α)) : Outcome (EngineError ε) α × Nat :=
  match invokeNode true none extraPos extraKw op.first with
  | .error e => (.failure e, 1)
  | .ok v =>
    let p := runRestCount v op.rest
    (p.1, p.2 + 1)

/-- Modelled from the spec: chaining concatenates the node sequences without
reordering or mutating either operand (spec 4.4). -/
def Operation.chain {ε α : Type} (a b : Operation ε α) : Operation ε α :=
  ⟨a.first, a.rest ++ b.first :: b.rest⟩

/-- Modelled from the spec: wrap a plain callable (declared parameter names plus
body) as a one-node Operation with empty bound arguments (spec 4.4). -/
def wrap {ε α : Type} (params : List String) (f : List α → Except ε α) : Operation ε α :=
  ⟨⟨params, f, [], []⟩, []⟩

/-- Fill Placeholder slots of a stored bound-argument list, in left-to-right
order, from newly supplied binding slots; a hole with no supply left stays a
hole (binding never executes and never fails). -/
def fillHolesPos {α : Type} : List (Arg α) → List (Arg α) → List (Arg α) × List (Arg α)
  | [], supply => ([], supply)
  | .val v :: rest, supply =>
    let p := fillHolesPos rest supply
    (.val v :: p.1, p.2)
  | .hole :: rest, s :: supply =>
    let p := fillHolesPos rest supply
    (s :: p.1, p.2)
  | .hole :: rest, [] =>
    let p := fillHolesPos rest []
    (.hole :: p.1, p.2)

/-- Fill Placeholder slots of a stored bound keyword list from the remaining
newly supplied binding slots, continuing in order. -/
def fillHolesKw {α : Type} : List (String × Arg α) → List (Arg α) →
    List (String × Arg α) × List (Arg α)
  | [], supply => ([], supply)
  | (k, .val v) :: rest, supply =>
    let p := fillHolesKw rest supply
    ((k, .val v) :: p.1, p.2)
  | (k, .hole) :: rest, s :: supply =>
    let p := fillHolesKw rest supply
    ((k, s) :: p.1, p.2)
  | (k, .hole) :: rest, [] =>
    let p := fillHolesKw rest []
    ((k, .hole) :: p.1, p.2)

/-- Modelled from the spec: binding via call syntax merges the supplied arguments
into the node's bound stores per the binder rules (spec 2 and 4.3): an
unbound node stores them verbatim, a node with Placeholders has its holes
filled in left-to-right order from the supplied positional slots (supplied
keyword slots then cover keyword names not already bound), and a fully bound
node discards them entirely (the first binding is final). The original node
is never modified: a new node value is produced. -/
def Node.bindCall {ε α : Type} (n : Node ε α) (pos : List (Arg α))
    (kw : List (String × Arg α)) : Node ε α :=
  if n.isUnbound then { n with boundPos := pos, boundKw := kw }
  else if n.hasHole then
    let fp := fillHolesPos n.boundPos pos
    let fk := fillHolesKw n.boundKw fp.2
    { n with
        boundPos := fp.1,
        boundKw := fk.1 ++ kw.filter fun p => !((n.boundKw.map Prod.fst).contains p.1) }
  else n

/-- Modelled from the spec: partial application returns a new Operation whose
first node is a bound copy of the original's first node, the remaining nodes
shared (spec 4.4); it does not execute. -/
def Operation.bindCall {ε α : Type} (op : Operation ε α) (pos : List (Arg α))
    (kw : List (String × Arg α)) : Operation ε α :=
  ⟨op.first.bindCall pos kw, op.rest⟩

/-- The two-argument addition callable of the repository tests, wrapped. -/
def addOp : Operation Int Int :=
  wrap ["a", "b"] fun l => match l with | [a, b] => .ok (a + b) | _ => .error 0

/-- The one-argument increment callable of the repository tests, wrapped. -/
def addOneOp : Operation Int Int :=
  wrap ["a"] fun l => match l with | [a] => .ok (a + 1) | _ => .error 0

/-- The two-argument multiplication callable of the repository tests, wrapped. -/
def mulOp : Operation Int Int :=
  wrap ["x", "y"] fun l => match l with | [x, y] => .ok (x * y) | _ => .error 0

/-- The identity callable of the repository tests, wrapped. -/
def idOp : Operation Int Int :=
  wrap ["value"] fun l => match l with | [v] => .ok v | _ => .error 0

/-- A wrapped callable that raises on every invocation. -/
def raiseOp (e : Int) : Operation Int Int :=
  wrap ["x"] fun _ => .error e

/-- A store of Nodes addressed by index: the model of the heap of Node objects,
used to state that binding is copy-on-write and never mutates a stored Node. -/
structure NodeStore (ε α : Type) where
  nodes : List (Node ε α)

/-- An Operation referenced through the store: the index of its first node and
the indices of the remaining nodes. -/
structure OpRef where
  firstId : Nat
  restIds : List Nat

/-- Look one node up in the store. -/
def NodeStore.node? {ε α : Type} (σ : NodeStore ε α) (i : Nat) : Option (Node ε α) :=
  σ.nodes.get? i

/-- Look a list of nodes up in the store. -/
def nodesOf {ε α : Type} (σ : NodeStore ε α) : List Nat → Option (List (Node ε α))
  | [] => some []
  | i :: rest =>
    match σ.node? i with
    | none => none
    | some n =>
      match nodesOf σ rest with
      | none => none
      | some ns => some (n :: ns)

/-- Resolve an Operation reference against the store. -/
def derefOp {ε α : Type} (σ : NodeStore ε α) (r : OpRef) : Option (Operation ε α) :=
  (σ.node? r.firstId).bind fun f => (nodesOf σ r.restIds).map fun ns => Operation.mk f ns

/-- Modelled from the spec: partial application in the stored model. A new Node,
the bound copy of the referenced first node, is appended to the store; no
existing store entry is written (copy-on-write, spec 3 and 4.4), and the new
reference shares the remaining node indices. -/
def bindS {ε α : Type} (σ : NodeStore ε α) (r : OpRef) (pos : List (Arg α))
    (kw : List (String × Arg α)) : NodeStore ε α × OpRef :=
  match σ.node? r.firstId with
  | none => (σ, r)
  | some n => (⟨σ.nodes ++ [n.bindCall pos kw]⟩, ⟨σ.nodes.length, r.restIds⟩)

/-- Execute an Operation reference against the store. -/
def executeS {ε α : Type} (σ : NodeStore ε α) (r : OpRef) (ep : List α)
    (ek : List (String × α)) : Option (Outcome (EngineError ε) α) :=
  (derefOp σ r).map fun op => op.execute ep ek

/-- A reference is valid when all its node indices point into the store. -/
def validRef {ε α : Type} (σ : NodeStore ε α) (r : OpRef) : Prop :=
  r.firstId < σ.nodes.length ∧ ∀ i ∈ r.restIds, i < σ.nodes.length

/-- The concrete two-node store used by the C5 witness. -/
def storeW : NodeStore Int Int := ⟨[addOp.first, addOneOp.first]⟩

/-- The concrete Operation reference used by the C5 witness. -/
def refW : OpRef := ⟨0, [1]⟩

/-- The universe of Python values the data-shaping helpers of
src/fp_ops/objects.py operate on: None, scalars, strings, sequences,
dictionaries with string keys, objects with named attributes, and bound
builtin methods as retrieved from a sequence attribute (carrying the method
name; their own non-dunder attribute namespace is empty, and dunder names
are outside the modeled attribute namespace). -/
inductive PyVal where
  | none : PyVal
  | int : Int → PyVal
  | str : String → PyVal
  | bool : Bool → PyVal
  | list : List PyVal → PyVal
  | dict : List (String × PyVal) → PyVal
  | obj : List (String × PyVal) → PyVal
  | bmethod : String → PyVal

/-- The model of isinstance(x, dict). -/
def PyVal.isDict : PyVal → Bool
  | .dict _ => true
  | _ => false

/-- Single-key assignment on the association-list model of a Python dict: the
first occurrence of the key is overwritten in place, a fresh key is appended. -/
def dictSet {β : Type} : List (String × β) → String → β → List (String × β)
  | [], k, v => [(k, v)]
  | (k2, v2) :: rest, k, v =>
    if k2 = k then (k, v) :: rest else (k2, v2) :: dictSet rest k v

/-- The model of Python dict.update: assign every pair of the second dict into
the first, in order. -/
def dictUpdate {β : Type} (d u : List (String × β)) : List (String × β) :=
  u.foldl (fun acc p => dictSet acc p.1 p.2) d

/-- Left-biased choice on optional values (the value of the later dict wins is
expressed with the later lookup placed first). -/
def optOr {β : Type} : Option β → Option β → Option β
  | some v, _ => some v
  | none, b => b

/-- The model of the dict display {**s, **u} of _update_inner
(src/fp_ops/objects.py): insert all pairs of s, then all pairs of u,
into a fresh dict. -/
def pyMergeDicts (s u : List (String × PyVal)) : List (String × PyVal) :=
  dictUpdate (dictUpdate [] s) u

/-- Auto-wrap a one-parameter Python callable as a one-node Operation, the way
the operation decorator does for the helper inner functions. -/
def wrapPy (p : String) (f : PyVal → Except String PyVal) : Operation String PyVal :=
  wrap [p] fun l => match l with | [x] => f x | _ => .error "TypeError"

/-- Embedding of _update_inner (src/fp_ops/objects.py lines 209-212): the
operation returned by update(update_values), which shallow-merges the update
values over the source dict; applying it to a non-dict raises. -/
def updateOp (u : List (String × PyVal)) : Operation String PyVal :=
  wrapPy "source" fun src =>
    match src with
    | .dict d => .ok (.dict (pyMergeDicts d u))
    | _ => .error "TypeError"

/-- Executing update(update_values) on a source value, through the engine. -/
def updateExecute (u : List (String × PyVal)) (s : List (String × PyVal)) :
    Outcome (EngineError String) PyVal :=
  (updateOp u).execute [.dict s] []

mutual
/-- A value of a build schema (src/fp_ops/objects.py lines 81-115): an
Operation, a callable, a nested schema dict, or a static value; the dynamic
isinstance/callable tests of the source are the branches of this type. -/
inductive SVal where
  | op : Operation String PyVal → SVal
  | func : (PyVal → Except String PyVal) → SVal
  | nested : Schema → SVal
  | static : PyVal → SVal

/-- A build schema: an ordered Python dict from keys to schema values. -/
inductive Schema where
  | nil : Schema
  | cons : String → SVal → Schema → Schema
end

/-- The ordered key list of a schema. -/
def Schema.keys : Schema → List String
  | .nil => []
  | .cons k _ rest => k :: rest.keys

/-- First-occurrence lookup in a schema. -/
def Schema.lookup : Schema → String → Option SVal
  | .nil, _ => none
  | .cons k v rest, key => if k = key then some v else rest.lookup key

mutual
/-- Embedding of one loop iteration body of _build (src/fp_ops/objects.py lines
96-111): an Operation value is executed on the data and contributes its
success value, or None on failure; a callable is applied and contributes None
when it raises; a nested dict is built recursively (always succeeding); any
other value is kept as is. -/
def evalSVal (data : PyVal) : SVal → PyVal
  | .op o =>
    match o.execute [data] [] with
    | .success v => v
    | .failure _ => .none
  | .func f =>
    match f data with
    | .ok v => v
    | .error _ => .none
  | .nested sub => .dict (dictUpdate [] (assignList data sub))
  | .static v => v

/-- The ordered key-value assignments the _build loop makes for a schema. -/
def assignList (data : PyVal) : Schema → List (String × PyVal)
  | .nil => []
  | .cons k sv rest => (k, evalSVal data sv) :: assignList data rest
end

/-- Embedding of _build (src/fp_ops/objects.py lines 93-113): the result dict is
assembled by assigning each schema entry in order into a fresh dict. -/
def buildFn (schema : Schema) (data : PyVal) : List (String × PyVal) :=
  dictUpdate [] (assignList data schema)

/-- Embedding of build(schema) (src/fp_ops/objects.py line 115): the total
_build body wrapped as an operation. -/
def buildOp (schema : Schema) : Operation String PyVal :=
  wrapPy "data" fun d => .ok (.dict (buildFn schema d))

/-- Executing build(schema) on input data, through the engine. -/
def buildExecute (schema : Schema) (data : PyVal) : Outcome (EngineError String) PyVal :=
  (buildOp schema).execute [data] []

/-- A value inside a dict source of merge (src/fp_ops/objects.py lines 182-187):
either an Operation, executed on the data with None substituted on failure,
or a static value. -/
inductive MDictVal where
  | op : Operation String PyVal → MDictVal
  | static : PyVal → MDictVal

/-- A source of merge (src/fp_ops/objects.py lines 173-187): an Operation, a
callable, or a dict possibly containing Operation values. -/
inductive MergeSrc where
  | op : Operation String PyVal → MergeSrc
  | func : (PyVal → Except String PyVal) → MergeSrc
  | dict : List (String × MDictVal) → MergeSrc

/-- The entries a dict source contributes: Operation values are executed on the
data (None on failure), static values pass through (lines 182-187). -/
def mDictEntries (data : PyVal) : List (String × MDictVal) → List (String × PyVal)
  | [] => []
  | (k, .op o) :: rest =>
    (k, match o.execute [data] [] with
        | .success v => v
        | .failure _ => PyVal.none) :: mDictEntries data rest
  | (k, .static v) :: rest => (k, v) :: mDictEntries data rest

/-- Evaluating one merge source (lines 174-187): an Operation source yields its
success value, or an empty dict on failure; a callable source is applied to
the data and may raise; a dict source builds its update dict from a fresh
dict in order. -/
def evalSource (data : PyVal) : MergeSrc → Except String PyVal
  | .op o =>
    .ok (match o.execute [data] [] with
         | .success v => v
         | .failure _ => .dict [])
  | .func f => f data
  | .dict d => .ok (.dict (dictUpdate [] (mDictEntries data d)))

/-- Embedding of the _merge loop (src/fp_ops/objects.py lines 170-192): each
source is evaluated in order; an evaluation result that is a dict is merged
into the accumulator with dict.update, anything else adds nothing; a raising
callable aborts the loop with that error. -/
def mergeLoop (data : PyVal) (out : List (String × PyVal)) :
    List MergeSrc → Except String (List (String × PyVal))
  | [] => .ok out
  | s :: rest =>
    match evalSource data s with
    | .error e => .error e
    | .ok u =>
      match u with
      | .dict du => mergeLoop data (dictUpdate out du) rest
      | _ => mergeLoop data out rest

/-- Embedding of _merge, starting from an empty accumulator. -/
def mergeFn (sources : List MergeSrc) (data : PyVal) :
    Except String (List (String × PyVal)) :=
  mergeLoop data [] sources

/-- Embedding of merge(sources...) (src/fp_ops/objects.py line 194): the _merge
body wrapped as an operation and executed on the data. -/
def mergeExecute (sources : List MergeSrc) (data : PyVal) :
    Outcome (EngineError String) PyVal :=
  (wrapPy "data" fun d => (mergeFn sources d).map PyVal.dict).execute [data] []

/-- The concrete source dict of the C7 witness. -/
def srcW : List (String × PyVal) := [("a", .int 1), ("b", .int 2)]

/-- The concrete update dict of the C7 witness. -/
def updW : List (String × PyVal) := [("b", .int 3), ("c", .int 4)]

/-- A build-schema Operation value that always fails, for the C9 witness. -/
def boomOp : Operation String PyVal :=
  wrapPy "x" fun _ => .error "boom"

/-- A build-schema callable that always raises, for the C9 witness. -/
def boomFn : PyVal → Except String PyVal :=
  fun _ => .error "boom"

/-- The concrete schema of the C9 witness: a failing Operation entry, a raising
callable entry, and a static entry. -/
def schemaW : Schema :=
  .cons "a" (.op boomOp) (.cons "b" (.func boomFn) (.cons "c" (.static (.int 5)) .nil))

/-- The concrete merge sources of the C10 witness. -/
def mergeSrcsW : List MergeSrc :=
  [.dict [("a", .static (.int 1)), ("b", .static (.int 2))],
   .dict [("b", .static (.int 3))]]

/-- A merge callable source returning None, for the C10 witness. -/
def noneFn : PyVal → Except String PyVal :=
  fun _ => .ok PyVal.none

/-- On a node that is bound and holds no Placeholder, the Binder's result does
not depend on the node's position, the upstream value or the call extras. -/
theorem bindArgs_const {ε α : Type} (n : Node ε α) (isFirst : Bool) (up : Option α)
    (ep : List α) (ek : List (String × α)) (h1 : n.isUnbound = false)
    (h2 : n.hasHole = false) :
    bindArgs isFirst up ep ek n = bindArgs true none [] [] n := by
  simp [bindArgs, h1, h2]

/-- On a node that is bound and holds no Placeholder, a node invocation does not
depend on the node's position, the upstream value or the call extras. -/
theorem invokeNode_const {ε α : Type} (n : Node ε α) (isFirst : Bool) (up : Option α)
    (ep : List α) (ek : List (String × α)) (h1 : n.isUnbound = false)
    (h2 : n.hasHole = false) :
    invokeNode isFirst up ep ek n = invokeNode true none [] [] n := by
  unfold invokeNode
  rw [bindArgs_const n isFirst up ep ek h1 h2]

/-- C1 test -/
theorem c1_prebound_arguments_always_win {ε α : Type} :
    (∀ (n : Node ε α) (isFirst : Bool) (up : Option α) (ep : List α) (ek : List (String × α)),
        n.isUnbound = false → n.hasHole = false →
        bindArgs isFirst up ep ek n = bindArgs true none [] [] n)
    ∧ (∀ (ep : List Int) (ek : List (String × Int)),
        ((addOp.bindCall [.val 1, .val 2] []).chain addOneOp).execute ep ek = .success 4)
    ∧ ((addOp.bindCall [.val 1, .val 2] []).chain (addOneOp.bindCall [.val 1] [])).execute [] []
        = .success 2 := by
  refine ⟨fun n isFirst up ep ek h1 h2 => bindArgs_const n isFirst up ep ek h1 h2, ?_, by decide⟩
  intro ep ek
  show Operation.execute _ ep ek = _
  unfold Operation.execute
  rw [invokeNode_const _ true none ep ek (by decide) (by decide)]
  decide

/-- C1 witness test -/
theorem c1_witness_t :
    bindArgs false (some (99 : Int)) [7, 8] [("a", 5)]
        ((addOp.bindCall [Arg.val 1, Arg.val 2] []).first : Node Int Int)
      = bindArgs true none [] [] ((addOp.bindCall [Arg.val 1, Arg.val 2] []).first)
    ∧ ((addOp.bindCall [Arg.val 1, Arg.val 2] []).chain addOneOp).execute [10, 6] [] = .success 4
    ∧ ((addOp.bindCall [Arg.val 1, Arg.val 2] []).chain
        (addOneOp.bindCall [Arg.val 1] [])).execute [] [] = .success 2 :=
  ⟨(c1_prebound_arguments_always_win (ε := Int) (α := Int)).1 _ false (some 99) [7, 8]
      [("a", 5)] (by decide) (by decide),
   (c1_prebound_arguments_always_win (ε := Int) (α := Int)).2.1 [10, 6] [],
   (c1_prebound_arguments_always_win (ε := Int) (α := Int)).2.2⟩

lemma substPosUp_vals {α : Type} (u : α) (vs : List α) :
    substPosUp u (vs.map Arg.val) = vs := by
  induction vs with
  | nil => rfl
  | cons v rest ih => simp [substPosUp] at ih ⊢; exact ih

lemma argVals_vals {α : Type} (vs : List α) :
    argVals? (vs.map Arg.val) = some vs := by
  induction vs with
  | nil => rfl
  | cons v rest ih => simp [argVals?, ih]

/-- C2 -/
theorem c2_placeholder_substitution {ε α : Type} :
    (∀ (n : Node ε α) (up : Option α) (ep : List α) (ek : List (String × α))
        (ps rem : List α),
        n.isUnbound = false → n.hasHole = true → n.boundKw = [] →
        substPos n.boundPos ep = some (ps, rem) →
        bindArgs true up ep ek n = some (ps, ek))
    ∧ (∀ (n : Node ε α) (u : α) (ep : List α) (ek : List (String × α)),
        n.isUnbound = false → n.hasHole = true →
        bindArgs false (some u) ep ek n
          = some (substPosUp u n.boundPos, substKwUp u n.boundKw))
    ∧ (∀ (u : α) (vs : List α), substPosUp u (vs.map Arg.val) = vs)
    ∧ ((addOp.bindCall [.hole, .hole] []).execute [1, 2] [] = .success 3
        ∧ ((addOp.bindCall [.hole, .hole] []).bindCall [.val 1, .val 2] []).execute [] []
            = .success 3)
    ∧ (addOp.chain (mulOp.bindCall [.hole, .val 3] [])).execute [] [("a", 1), ("b", 2)]
        = .success 9 := by
  refine ⟨?_, ?_, fun u vs => substPosUp_vals u vs, ⟨by decide, by decide⟩, by decide⟩
  · intro n up ep ek ps rem h1 h2 hkw hs
    simp [bindArgs, h1, h2, hkw, hs, substKw]
  · intro n u ep ek h1 h2
    simp [bindArgs, h1, h2]

/-- C2 witness -/
theorem c2_witness_t :
    bindArgs true (some (7 : Int)) [9] [("z", 4)] ((mulOp.bindCall [Arg.hole, Arg.val 3] []).first)
      = some ([9, 3], [("z", 4)])
    ∧ bindArgs false (some (3 : Int)) [8] [("z", 4)] ((mulOp.bindCall [Arg.hole, Arg.val 3] []).first)
      = some (substPosUp 3 ((mulOp.bindCall [Arg.hole, Arg.val 3] []).first).boundPos,
              substKwUp 3 ((mulOp.bindCall [Arg.hole, Arg.val 3] []).first).boundKw)
    ∧ substPosUp (5 : Int) ([1, 2].map Arg.val) = [1, 2]
    ∧ (addOp.bindCall [.hole, .hole] []).execute [1, 2] [] = .success 3 :=
  ⟨(c2_placeholder_substitution (ε := Int) (α := Int)).1 _ (some 7) [9] [("z", 4)] [9, 3] []
      (by decide) (by decide) (by decide) (by decide),
   (c2_placeholder_substitution (ε := Int) (α := Int)).2.1 _ 3 [8] [("z", 4)]
      (by decide) (by decide),
   (c2_placeholder_substitution (ε := Int) (α := Int)).2.2.1 5 [1, 2],
   (c2_placeholder_substitution (ε := Int) (α := Int)).2.2.2.1.1⟩

/-- C6 -/
theorem c6_unbound_nodes {ε α : Type} :
    (∀ (n : Node ε α) (ep : List α) (ek : List (String × α)),
        n.isUnbound = true → bindArgs true none ep ek n = some (ep, ek))
    ∧ (∀ (n : Node ε α) (u : α) (ep : List α) (ek : List (String × α)),
        n.isUnbound = true → bindArgs false (some u) ep ek n = some ([u], []))
    ∧ (addOp.chain addOneOp).execute [] [("a", 1), ("b", 2)] = .success 4 := by
  refine ⟨?_, ?_, by decide⟩
  · intro n ep ek h; simp [bindArgs, h]
  · intro n u ep ek h; simp [bindArgs, h]

/-- C6 witness -/
theorem c6_witness_t :
    bindArgs true none [1] [("b", (2 : Int))] (addOp.first) = some ([1], [("b", 2)])
    ∧ bindArgs false (some (3 : Int)) [9] [("q", 4)] (addOneOp.first) = some ([3], []) :=
  ⟨(c6_unbound_nodes (ε := Int) (α := Int)).1 addOp.first [1] [("b", 2)] (by decide),
   (c6_unbound_nodes (ε := Int) (α := Int)).2.1 addOneOp.first 3 [9] [("q", 4)] (by decide)⟩

/-- C4 -/
theorem c4_chain_assoc {ε α : Type} (a b c : Operation ε α) (ep : List α)
    (ek : List (String × α)) :
    (a.chain b).chain c = a.chain (b.chain c)
    ∧ ((a.chain b).chain c).nodes = (a.chain (b.chain c)).nodes
    ∧ ((a.chain b).chain c).execute ep ek = (a.chain (b.chain c)).execute ep ek := by
  have h : (a.chain b).chain c = a.chain (b.chain c) := by
    simp [Operation.chain]
  exact ⟨h, by rw [h], by rw [h]⟩

lemma runRestCount_fst {ε α : Type} (l : List (Node ε α)) (u : α) :
    (runRestCount u l).1 = runRest u l := by
  induction l generalizing u with
  | nil => rfl
  | cons n rest ih =>
    simp [runRestCount, runRest]
    cases invokeNode false (some u) [] [] n with
    | error e => rfl
    | ok v => simpa using ih v

lemma executeCount_fst {ε α : Type} (op : Operation ε α) (ep : List α)
    (ek : List (String × α)) :
    (op.executeCount ep ek).1 = op.execute ep ek := by
  simp [Operation.executeCount, Operation.execute]
  cases invokeNode true none ep ek op.first with
  | error e => rfl
  | ok v => simpa using runRestCount_fst op.rest v

lemma runRestCount_append_success {ε α : Type} (pre : List (Node ε α)) :
    ∀ (u w : α) (k : Nat), runRestCount u pre = (.success w, k) →
    ∀ (l : List (Node ε α)),
      runRestCount u (pre ++ l) = ((runRestCount w l).1, (runRestCount w l).2 + k) := by
  induction pre with
  | nil =>
    intro u w k h l
    simp [runRestCount] at h
    obtain ⟨h1, h2⟩ := h
    subst h1; subst h2
    simp
  | cons n pre ih =>
    intro u w k h l
    simp only [runRestCount, List.cons_append] at h ⊢
    cases hi : invokeNode false (some u) [] [] n with
    | error e =>
      rw [hi] at h
      simp at h
    | ok v =>
      rw [hi] at h
      dsimp only at h
      show ((runRestCount v (pre ++ l)).1, (runRestCount v (pre ++ l)).2 + 1)
        = ((runRestCount w l).1, (runRestCount w l).2 + k)
      have h1 : (runRestCount v pre).1 = Outcome.success w := congrArg Prod.fst h
      have h2 : (runRestCount v pre).2 + 1 = k := congrArg Prod.snd h
      have hp : runRestCount v pre = (Outcome.success w, (runRestCount v pre).2) := by
        rw [← h1]
      have h3 := ih v w (runRestCount v pre).2 hp l
      rw [h3]
      simp only [Prod.mk.injEq]
      refine ⟨trivial, ?_⟩
      omega

/-- C3 -/
theorem c3_short_circuit {ε α : Type} :
    (∀ (op : Operation ε α) (ep : List α) (ek : List (String × α)),
        (op.executeCount ep ek).1 = op.execute ep ek)
    ∧ (∀ (f : Node ε α) (rest rest2 : List (Node ε α)) (e : EngineError ε)
          (ep : List α) (ek : List (String × α)),
        invokeNode true none ep ek f = .error e →
        Operation.executeCount ⟨f, rest⟩ ep ek = (.failure e, 1)
        ∧ Operation.executeCount ⟨f, rest⟩ ep ek = Operation.executeCount ⟨f, rest2⟩ ep ek)
    ∧ (∀ (f : Node ε α) (pre : List (Node ε α)) (n : Node ε α) (rest : List (Node ε α))
          (e : EngineError ε) (u : α) (ep : List α) (ek : List (String × α)),
        Operation.executeCount ⟨f, pre⟩ ep ek = (.success u, pre.length + 1) →
        invokeNode false (some u) [] [] n = .error e →
        Operation.executeCount ⟨f, pre ++ n :: rest⟩ ep ek = (.failure e, pre.length + 2)) := by
  refine ⟨executeCount_fst, ?_, ?_⟩
  · intro f rest rest2 e ep ek h
    constructor
    · simp [Operation.executeCount, h]
    · simp [Operation.executeCount, h]
  · intro f pre n rest e u ep ek h hn
    simp only [Operation.executeCount] at h ⊢
    cases hi : invokeNode true none ep ek f with
    | error e2 =>
      rw [hi] at h
      simp at h
    | ok v =>
      rw [hi] at h
      dsimp only at h
      show ((runRestCount v (pre ++ n :: rest)).1, (runRestCount v (pre ++ n :: rest)).2 + 1)
        = (Outcome.failure e, pre.length + 2)
      have h1 : (runRestCount v pre).1 = Outcome.success u := congrArg Prod.fst h
      have h2 : (runRestCount v pre).2 + 1 = pre.length + 1 := congrArg Prod.snd h
      have hp : runRestCount v pre = (Outcome.success u, (runRestCount v pre).2) := by
        rw [← h1]
      have h3 := runRestCount_append_success pre v u (runRestCount v pre).2 hp (n :: rest)
      rw [h3]
      simp only [runRestCount, hn, Prod.mk.injEq]
      refine ⟨trivial, ?_⟩
      omega

/-- C3 witness -/
theorem c3_witness_t :
    Operation.executeCount ⟨(raiseOp 7).first, [addOneOp.first]⟩ [1] []
      = (.failure (.raised 7), 1)
    ∧ Operation.executeCount ⟨(raiseOp 7).first, [addOneOp.first]⟩ [1] []
      = Operation.executeCount ⟨(raiseOp 7).first, [mulOp.first]⟩ [1] []
    ∧ Operation.executeCount ⟨addOp.first, (raiseOp 7).first :: [addOneOp.first]⟩ [1, 2] []
      = (.failure (.raised 7), 2) :=
  ⟨((c3_short_circuit (ε := Int) (α := Int)).2.1 (raiseOp 7).first [addOneOp.first]
      [mulOp.first] (.raised 7) [1] [] rfl).1,
   ((c3_short_circuit (ε := Int) (α := Int)).2.1 (raiseOp 7).first [addOneOp.first]
      [mulOp.first] (.raised 7) [1] [] rfl).2,
   (c3_short_circuit (ε := Int) (α := Int)).2.2 addOp.first [] (raiseOp 7).first
      [addOneOp.first] (.raised 7) 3 [1, 2] [] (by decide) rfl⟩

lemma node?_extend {ε α : Type} (σ : NodeStore ε α) (l : List (Node ε α)) (i : Nat)
    (h : i < σ.nodes.length) :
    NodeStore.node? ⟨σ.nodes ++ l⟩ i = σ.node? i := by
  simp only [NodeStore.node?]
  exact List.get?_append h

lemma nodesOf_extend {ε α : Type} (σ : NodeStore ε α) (l : List (Node ε α)) (ids : List Nat)
    (h : ∀ i ∈ ids, i < σ.nodes.length) :
    nodesOf ⟨σ.nodes ++ l⟩ ids = nodesOf σ ids := by
  induction ids with
  | nil => rfl
  | cons i rest ih =>
    simp only [nodesOf]
    rw [node?_extend σ l i (h i (by simp))]
    rw [ih fun j hj => h j (by simp [hj])]

lemma nodesOf_total {ε α : Type} (σ : NodeStore ε α) (ids : List Nat)
    (h : ∀ i ∈ ids, i < σ.nodes.length) : ∃ ns, nodesOf σ ids = some ns := by
  induction ids with
  | nil => exact ⟨[], rfl⟩
  | cons i rest ih =>
    obtain ⟨ns, hns⟩ := ih fun j hj => h j (by simp [hj])
    have hi : σ.node? i = some (σ.nodes.get ⟨i, h i (by simp)⟩) :=
      List.get?_eq_get (h i (by simp))
    refine ⟨σ.nodes.get ⟨i, h i (by simp)⟩ :: ns, ?_⟩
    simp only [nodesOf, hi, hns]

lemma derefOp_extend {ε α : Type} (σ : NodeStore ε α) (l : List (Node ε α)) (r : OpRef)
    (h : validRef σ r) :
    derefOp ⟨σ.nodes ++ l⟩ r = derefOp σ r := by
  simp only [derefOp]
  rw [node?_extend σ l r.firstId h.1, nodesOf_extend σ l r.restIds h.2]

lemma executeS_extend {ε α : Type} (σ : NodeStore ε α) (l : List (Node ε α)) (r : OpRef)
    (ep : List α) (ek : List (String × α)) (h : validRef σ r) :
    executeS ⟨σ.nodes ++ l⟩ r ep ek = executeS σ r ep ek := by
  simp only [executeS]
  rw [derefOp_extend σ l r h]

/-- C5 -/
theorem c5_store {ε α : Type} (σ : NodeStore ε α) (r : OpRef)
    (xp : List (Arg α)) (xk : List (String × Arg α))
    (yp : List (Arg α)) (yk : List (String × Arg α))
    (ep : List α) (ek : List (String × α)) (h : validRef σ r) :
    executeS (bindS (bindS σ r xp xk).1 r yp yk).1 r ep ek = executeS σ r ep ek
    ∧ executeS (bindS (bindS σ r xp xk).1 r yp yk).1 (bindS σ r xp xk).2 ep ek
        = executeS (bindS σ r xp xk).1 (bindS σ r xp xk).2 ep ek
    ∧ executeS (bindS (bindS σ r xp xk).1 r yp yk).1 (bindS σ r xp xk).2 ep ek
        = (derefOp σ r).map (fun op => (op.bindCall xp xk).execute ep ek)
    ∧ executeS (bindS (bindS σ r xp xk).1 r yp yk).1 (bindS (bindS σ r xp xk).1 r yp yk).2 ep ek
        = (derefOp σ r).map (fun op => (op.bindCall yp yk).execute ep ek) := by
  obtain ⟨h1, h2⟩ := h
  have hn : σ.node? r.firstId = some (σ.nodes.get ⟨r.firstId, h1⟩) := List.get?_eq_get h1
  set n := σ.nodes.get ⟨r.firstId, h1⟩ with hndef
  obtain ⟨ns, hns⟩ := nodesOf_total σ r.restIds h2
  have hb1 : bindS σ r xp xk
      = (⟨σ.nodes ++ [n.bindCall xp xk]⟩, ⟨σ.nodes.length, r.restIds⟩) := by
    simp only [bindS, hn]
  have hσ1 : (bindS σ r xp xk).1 = ⟨σ.nodes ++ [n.bindCall xp xk]⟩ := by rw [hb1]
  have hr1 : (bindS σ r xp xk).2 = ⟨σ.nodes.length, r.restIds⟩ := by rw [hb1]
  have hn1 : (⟨σ.nodes ++ [n.bindCall xp xk]⟩ : NodeStore ε α).node? r.firstId = some n := by
    rw [node?_extend σ [n.bindCall xp xk] r.firstId h1, hn]
  have hb2 : bindS ⟨σ.nodes ++ [n.bindCall xp xk]⟩ r yp yk
      = (⟨(σ.nodes ++ [n.bindCall xp xk]) ++ [n.bindCall yp yk]⟩,
         ⟨(σ.nodes ++ [n.bindCall xp xk]).length, r.restIds⟩) := by
    simp only [bindS, hn1]
  rw [hσ1]
  rw [hb2]
  have hass : (⟨(σ.nodes ++ [n.bindCall xp xk]) ++ [n.bindCall yp yk]⟩ : NodeStore ε α)
      = ⟨σ.nodes ++ ([n.bindCall xp xk] ++ [n.bindCall yp yk])⟩ := by
    rw [List.append_assoc]
  have hval1 : validRef (⟨σ.nodes ++ [n.bindCall xp xk]⟩ : NodeStore ε α)
      ⟨σ.nodes.length, r.restIds⟩ := by
    constructor
    · simp
    · intro i hi
      have := h2 i hi
      simp only [NodeStore.nodes] at this ⊢
      simp [List.length_append]
      omega
  have hd0 : derefOp σ r = some (Operation.mk n ns) := by
    simp [derefOp, hn, hns]
  have hd1 : derefOp (⟨σ.nodes ++ [n.bindCall xp xk]⟩ : NodeStore ε α)
      ⟨σ.nodes.length, r.restIds⟩ = some (Operation.mk (n.bindCall xp xk) ns) := by
    have hfk : NodeStore.node? (⟨σ.nodes ++ [n.bindCall xp xk]⟩ : NodeStore ε α)
        σ.nodes.length = some (n.bindCall xp xk) := by
      simp only [NodeStore.node?]
      exact List.get?_concat_length σ.nodes (n.bindCall xp xk)
    simp [derefOp, hfk, nodesOf_extend σ [n.bindCall xp xk] r.restIds h2, hns]
  have hc2 : executeS ⟨(σ.nodes ++ [n.bindCall xp xk]) ++ [n.bindCall yp yk]⟩
      (⟨σ.nodes.length, r.restIds⟩ : OpRef) ep ek
      = executeS ⟨σ.nodes ++ [n.bindCall xp xk]⟩ (⟨σ.nodes.length, r.restIds⟩ : OpRef) ep ek :=
    executeS_extend ⟨σ.nodes ++ [n.bindCall xp xk]⟩ [n.bindCall yp yk]
      ⟨σ.nodes.length, r.restIds⟩ ep ek hval1
  have hd2 : derefOp (⟨(σ.nodes ++ [n.bindCall xp xk]) ++ [n.bindCall yp yk]⟩ : NodeStore ε α)
      ⟨(σ.nodes ++ [n.bindCall xp xk]).length, r.restIds⟩
      = some (Operation.mk (n.bindCall yp yk) ns) := by
    have hfk : NodeStore.node?
        (⟨(σ.nodes ++ [n.bindCall xp xk]) ++ [n.bindCall yp yk]⟩ : NodeStore ε α)
        (σ.nodes ++ [n.bindCall xp xk]).length = some (n.bindCall yp yk) := by
      simp only [NodeStore.node?]
      exact List.get?_concat_length _ _
    have hno : nodesOf (⟨(σ.nodes ++ [n.bindCall xp xk]) ++ [n.bindCall yp yk]⟩ : NodeStore ε α)
        r.restIds = some ns := by
      rw [hass]
      rw [nodesOf_extend σ ([n.bindCall xp xk] ++ [n.bindCall yp yk]) r.restIds h2]
      exact hns
    simp only [derefOp]
    rw [hfk, hno]
    rfl
  refine ⟨?_, ?_, ?_, ?_⟩
  · rw [hass]
    exact executeS_extend σ ([n.bindCall xp xk] ++ [n.bindCall yp yk]) r ep ek ⟨h1, h2⟩
  · rw [hr1]
    exact hc2
  · rw [hr1, hc2]
    simp only [executeS, hd1, hd0]
    rfl
  · simp only [executeS, hd2, hd0]
    rfl

/-- C5 witness -/
theorem c5_witness_t :
    executeS (bindS (bindS storeW refW [Arg.val 1, Arg.val 2] []).1 refW
        [Arg.val 5, Arg.val 6] []).1 refW [1, 2] [] = executeS storeW refW [1, 2] []
    ∧ executeS (bindS (bindS storeW refW [Arg.val 1, Arg.val 2] []).1 refW
        [Arg.val 5, Arg.val 6] []).1 (bindS storeW refW [Arg.val 1, Arg.val 2] []).2 [1, 2] []
      = executeS (bindS storeW refW [Arg.val 1, Arg.val 2] []).1
          (bindS storeW refW [Arg.val 1, Arg.val 2] []).2 [1, 2] []
    ∧ executeS (bindS (bindS storeW refW [Arg.val 1, Arg.val 2] []).1 refW
        [Arg.val 5, Arg.val 6] []).1 (bindS storeW refW [Arg.val 1, Arg.val 2] []).2 [1, 2] []
      = (derefOp storeW refW).map
          (fun op => (op.bindCall [Arg.val 1, Arg.val 2] []).execute [1, 2] [])
    ∧ executeS (bindS (bindS storeW refW [Arg.val 1, Arg.val 2] []).1 refW
        [Arg.val 5, Arg.val 6] []).1
        (bindS (bindS storeW refW [Arg.val 1, Arg.val 2] []).1 refW
          [Arg.val 5, Arg.val 6] []).2 [1, 2] []
      = (derefOp storeW refW).map
          (fun op => (op.bindCall [Arg.val 5, Arg.val 6] []).execute [1, 2] []) :=
  c5_store storeW refW [Arg.val 1, Arg.val 2] [] [Arg.val 5, Arg.val 6] [] [1, 2] []
    ⟨by decide, by decide⟩

lemma wrapPy_execute (p : String) (f : PyVal → Except String PyVal) (x : PyVal) :
    (wrapPy p f).execute [x] [] =
      match f x with
      | .ok v => .success v
      | .error e => .failure (.raised e) := by
  cases hf : f x <;>
    simp [Operation.execute, wrapPy, wrap, invokeNode, bindArgs, resolveArgs,
      Node.isUnbound, Node.hasHole, fillSlots, dictLookup, runRest, hf]

lemma dictLookup_dictSet {β : Type} (d : List (String × β)) (k key : String) (v : β) :
    dictLookup (dictSet d k v) key = if k = key then some v else dictLookup d key := by
  induction d with
  | nil => simp [dictSet, dictLookup]
  | cons p rest ih =>
    obtain ⟨k2, v2⟩ := p
    by_cases h2 : k2 = k
    · subst h2
      simp only [dictSet, if_pos rfl, dictLookup]
      by_cases hk : k2 = key
      · subst hk
        simp
      · rw [if_neg hk, if_neg hk, if_neg hk]
    · simp only [dictSet, if_neg h2, dictLookup]
      by_cases hk : k2 = key
      · subst hk
        rw [if_pos rfl, if_neg fun he => h2 he.symm, if_pos rfl]
      · rw [if_neg hk, ih, if_neg hk]

lemma dictLookup_none_of_not_mem {β : Type} (u : List (String × β)) (k : String)
    (h : k ∉ u.map Prod.fst) : dictLookup u k = none := by
  induction u with
  | nil => rfl
  | cons p rest ih =>
    obtain ⟨k2, v2⟩ := p
    simp only [List.map_cons, List.mem_cons] at h
    push_neg at h
    simp only [dictLookup]
    rw [if_neg fun he => h.1 he.symm]
    exact ih h.2

lemma dictLookup_dictUpdate {β : Type} (u : List (String × β)) :
    ∀ (d : List (String × β)) (key : String), (u.map Prod.fst).Nodup →
    dictLookup (dictUpdate d u) key = optOr (dictLookup u key) (dictLookup d key) := by
  induction u with
  | nil =>
    intro d key h
    simp [dictUpdate, dictLookup, optOr]
  | cons p rest ih =>
    intro d key h
    obtain ⟨k0, v0⟩ := p
    simp only [List.map_cons, List.nodup_cons] at h
    have hupd : dictUpdate d ((k0, v0) :: rest) = dictUpdate (dictSet d k0 v0) rest := rfl
    rw [hupd, ih (dictSet d k0 v0) key h.2, dictLookup_dictSet]
    by_cases hk : k0 = key
    · subst hk
      have hnone : dictLookup rest k0 = none := dictLookup_none_of_not_mem rest k0 h.1
      simp [dictLookup, hnone, optOr]
    · simp only [dictLookup, if_neg hk, if_neg hk]

lemma dictSet_append_of_not_mem {β : Type} (d : List (String × β)) (k : String) (v : β)
    (h : k ∉ d.map Prod.fst) : dictSet d k v = d ++ [(k, v)] := by
  induction d with
  | nil => rfl
  | cons p rest ih =>
    obtain ⟨k2, v2⟩ := p
    simp only [List.map_cons, List.mem_cons] at h
    push_neg at h
    simp only [dictSet]
    rw [if_neg fun he => h.1 he.symm]
    rw [ih h.2]
    rfl

lemma dictUpdate_eq_append {β : Type} (l : List (String × β)) :
    ∀ (d : List (String × β)), (∀ k ∈ l.map Prod.fst, k ∉ d.map Prod.fst) →
    (l.map Prod.fst).Nodup → dictUpdate d l = d ++ l := by
  induction l with
  | nil => intro d _ _; simp [dictUpdate]
  | cons p rest ih =>
    intro d hdisj hnd
    obtain ⟨k0, v0⟩ := p
    simp only [List.map_cons, List.nodup_cons] at hnd
    have hstep : dictUpdate d ((k0, v0) :: rest) = dictUpdate (dictSet d k0 v0) rest := rfl
    rw [hstep, dictSet_append_of_not_mem d k0 v0 (hdisj k0 (by simp))]
    rw [ih (d ++ [(k0, v0)]) ?_ hnd.2]
    · simp
    · intro k hk
      simp only [List.map_append, List.mem_append, List.map_cons, List.map_nil]
      push_neg
      constructor
      · exact hdisj k (by simp [hk])
      · simp only [List.mem_singleton]
        intro he
        exact hnd.1 (he ▸ hk)

lemma dictUpdate_nil_of_nodup {β : Type} (l : List (String × β))
    (h : (l.map Prod.fst).Nodup) : dictUpdate [] l = l := by
  have := dictUpdate_eq_append l [] (by simp) h
  simpa using this

/-- C7 -/
theorem c7_update (s u : List (String × PyVal))
    (hs : (s.map Prod.fst).Nodup) (hu : (u.map Prod.fst).Nodup) :
    updateExecute u s = .success (.dict (pyMergeDicts s u))
    ∧ (∀ k, dictLookup (pyMergeDicts s u) k = optOr (dictLookup u k) (dictLookup s k))
    ∧ (∀ k v, dictLookup u k = some v → dictLookup (pyMergeDicts s u) k = some v)
    ∧ (∀ k, dictLookup u k = none → dictLookup (pyMergeDicts s u) k = dictLookup s k) := by
  have hkey : ∀ k, dictLookup (pyMergeDicts s u) k = optOr (dictLookup u k) (dictLookup s k) := by
    intro k
    unfold pyMergeDicts
    rw [dictLookup_dictUpdate u _ k hu]
    rw [dictUpdate_nil_of_nodup s hs]
  refine ⟨?_, hkey, ?_, ?_⟩
  · unfold updateExecute updateOp
    rw [wrapPy_execute]
  · intro k v h
    rw [hkey k, h]
    rfl
  · intro k h
    rw [hkey k, h]
    rfl

/-- C7 witness -/
theorem c7_witness_t :
    updateExecute updW srcW = .success (.dict (pyMergeDicts srcW updW))
    ∧ dictLookup (pyMergeDicts srcW updW) "b" = some (.int 3)
    ∧ dictLookup (pyMergeDicts srcW updW) "a" = dictLookup srcW "a" :=
  ⟨(c7_update srcW updW (by decide) (by decide)).1,
   (c7_update srcW updW (by decide) (by decide)).2.2.1 "b" (.int 3) rfl,
   (c7_update srcW updW (by decide) (by decide)).2.2.2 "a" rfl⟩

lemma assignList_keys (data : PyVal) :
    (schema : Schema) → (assignList data schema).map Prod.fst = schema.keys
  | .nil => rfl
  | .cons k v rest => by
    simp only [assignList, Schema.keys, List.map_cons]
    rw [assignList_keys data rest]

lemma assignList_lookup (data : PyVal) :
    (schema : Schema) → (key : String) →
    dictLookup (assignList data schema) key = (schema.lookup key).map (evalSVal data)
  | .nil, key => rfl
  | .cons k v rest, key => by
    simp only [assignList, Schema.lookup, dictLookup]
    by_cases h : k = key
    · simp [h]
    · simp only [if_neg h]
      exact assignList_lookup data rest key

/-- C9 -/
theorem c9_build_total (schema : Schema) (data : PyVal) (h : schema.keys.Nodup) :
    buildExecute schema data = .success (.dict (assignList data schema))
    ∧ (assignList data schema).map Prod.fst = schema.keys
    ∧ (∀ k o, schema.lookup k = some (.op o) → (o.execute [data] []).is_ok = false →
        dictLookup (assignList data schema) k = some PyVal.none)
    ∧ (∀ k f e, schema.lookup k = some (.func f) → f data = .error e →
        dictLookup (assignList data schema) k = some PyVal.none) := by
  have hkeys := assignList_keys data schema
  have hnd : ((assignList data schema).map Prod.fst).Nodup := by rw [hkeys]; exact h
  refine ⟨?_, hkeys, ?_, ?_⟩
  · unfold buildExecute buildOp
    rw [wrapPy_execute]
    show Outcome.success (PyVal.dict (buildFn schema data))
      = Outcome.success (PyVal.dict (assignList data schema))
    unfold buildFn
    rw [dictUpdate_nil_of_nodup _ hnd]
  · intro k o hk hko
    rw [assignList_lookup data schema k, hk]
    cases he : o.execute [data] [] with
    | success v =>
      rw [he] at hko
      simp [Outcome.is_ok] at hko
    | failure e2 =>
      simp [evalSVal, he]
  · intro k f e hk hfe
    rw [assignList_lookup data schema k, hk]
    simp [evalSVal, hfe]

/-- C9 witness -/
theorem c9_witness_t :
    buildExecute schemaW (.int 0) = .success (.dict (assignList (.int 0) schemaW))
    ∧ (assignList (.int 0) schemaW).map Prod.fst = schemaW.keys
    ∧ dictLookup (assignList (.int 0) schemaW) "a" = some PyVal.none
    ∧ dictLookup (assignList (.int 0) schemaW) "b" = some PyVal.none :=
  ⟨(c9_build_total schemaW (.int 0) (by decide)).1,
   (c9_build_total schemaW (.int 0) (by decide)).2.1,
   (c9_build_total schemaW (.int 0) (by decide)).2.2.1 "a" boomOp rfl rfl,
   (c9_build_total schemaW (.int 0) (by decide)).2.2.2 "b" boomFn "boom" rfl rfl⟩

lemma mergeLoop_append (data : PyVal) :
    ∀ (l1 : List MergeSrc) (out : List (String × PyVal)) (l2 : List MergeSrc),
    mergeLoop data out (l1 ++ l2)
      = (mergeLoop data out l1).bind fun o => mergeLoop data o l2 := by
  intro l1
  induction l1 with
  | nil => intro out l2; rfl
  | cons s l1 ih =>
    intro out l2
    simp only [List.cons_append, mergeLoop]
    cases evalSource data s with
    | error e => rfl
    | ok u => cases u <;> exact ih _ l2

lemma mDictEntries_keys (data : PyVal) :
    ∀ (d : List (String × MDictVal)), (mDictEntries data d).map Prod.fst = d.map Prod.fst := by
  intro d
  induction d with
  | nil => rfl
  | cons p rest ih =>
    obtain ⟨k, v⟩ := p
    cases v <;> simp [mDictEntries, ih]

/-- C10 -/
theorem c10_merge_accumulation (data : PyVal) :
    (∀ (pre suf : List MergeSrc) (f : PyVal → Except String PyVal) (v : PyVal),
        f data = .ok v → v.isDict = false →
        mergeFn (pre ++ .func f :: suf) data = mergeFn (pre ++ suf) data)
    ∧ (∀ (pre suf : List MergeSrc) (o : Operation String PyVal),
        (o.execute [data] []).is_ok = false →
        mergeFn (pre ++ .op o :: suf) data = mergeFn (pre ++ suf) data)
    ∧ (∀ (srcs : List MergeSrc) (d : List (String × MDictVal))
          (out : List (String × PyVal)), (d.map Prod.fst).Nodup →
        mergeFn srcs data = .ok out →
        mergeFn (srcs ++ [.dict d]) data = .ok (dictUpdate out (mDictEntries data d)))
    ∧ (∀ (out du : List (String × PyVal)) (k : String), (du.map Prod.fst).Nodup →
        dictLookup (dictUpdate out du) k = optOr (dictLookup du k) (dictLookup out k))
    ∧ (∀ (sources : List MergeSrc) (out : List (String × PyVal)),
        mergeFn sources data = .ok out →
        mergeExecute sources data = .success (.dict out)) := by
  refine ⟨?_, ?_, ?_, ?_, ?_⟩
  · intro pre suf f v hf hv
    unfold mergeFn
    rw [mergeLoop_append, mergeLoop_append]
    cases mergeLoop data [] pre with
    | error e => rfl
    | ok o =>
      show mergeLoop data o (.func f :: suf) = mergeLoop data o suf
      simp only [mergeLoop, evalSource, hf]
      cases v with
      | dict l => simp [PyVal.isDict] at hv
      | none => rfl
      | int n => rfl
      | str s0 => rfl
      | bool b => rfl
      | list l => rfl
      | obj attrs => rfl
      | bmethod nm => rfl
  · intro pre suf o ho
    unfold mergeFn
    rw [mergeLoop_append, mergeLoop_append]
    cases mergeLoop data [] pre with
    | error e => rfl
    | ok acc =>
      show mergeLoop data acc (.op o :: suf) = mergeLoop data acc suf
      cases he : o.execute [data] [] with
      | success v =>
        rw [he] at ho
        simp [Outcome.is_ok] at ho
      | failure e2 =>
        simp only [mergeLoop, evalSource, he]
        rfl
  · intro srcs d out hnd hsr
    unfold mergeFn at hsr ⊢
    rw [mergeLoop_append, hsr]
    show mergeLoop data out [.dict d] = _
    simp only [mergeLoop, evalSource]
    rw [dictUpdate_nil_of_nodup (mDictEntries data d)
      (by rw [mDictEntries_keys data d]; exact hnd)]
  · intro out du k hnd
    exact dictLookup_dictUpdate du out k hnd
  · intro sources out hs
    unfold mergeExecute
    rw [wrapPy_execute]
    rw [hs]
    rfl

/-- C10 witness -/
theorem c10_witness_t :
    mergeFn (mergeSrcsW ++ .func noneFn :: []) (.int 0) = mergeFn (mergeSrcsW ++ []) (.int 0)
    ∧ mergeFn (mergeSrcsW ++ .op boomOp :: []) (.int 0) = mergeFn (mergeSrcsW ++ []) (.int 0)
    ∧ mergeFn (mergeSrcsW ++ [.dict [("c", .static (.int 9))]]) (.int 0)
      = .ok (dictUpdate [("a", .int 1), ("b", .int 3)]
          (mDictEntries (.int 0) [("c", .static (.int 9))]))
    ∧ dictLookup (dictUpdate [("a", PyVal.int 1)] [("a", PyVal.int 5)]) "a"
      = optOr (dictLookup [("a", PyVal.int 5)] "a") (dictLookup [("a", PyVal.int 1)] "a")
    ∧ mergeExecute mergeSrcsW (.int 0) = .success (.dict [("a", .int 1), ("b", .int 3)]) :=
  ⟨(c10_merge_accumulation (.int 0)).1 mergeSrcsW [] noneFn PyVal.none rfl rfl,
   (c10_merge_accumulation (.int 0)).2.1 mergeSrcsW [] boomOp rfl,
   (c10_merge_accumulation (.int 0)).2.2.1 mergeSrcsW [("c", .static (.int 9))]
     [("a", .int 1), ("b", .int 3)] (by decide) rfl,
   (c10_merge_accumulation (.int 0)).2.2.2.1 [("a", PyVal.int 1)] [("a", PyVal.int 5)] "a"
     (by decide),
   (c10_merge_accumulation (.int 0)).2.2.2.2 mergeSrcsW [("a", .int 1), ("b", .int 3)] rfl⟩

end FpOps
